import Mathlib

/-!
Verification of the devotional repository's analysis core.

The Python sources (`compare.py`, `devotional_generator.py`) are shallowly
embedded here.  Strings are modelled as `List Char` (`Str`), SQLite rows as
Lean structures, nullable SQL columns as `Option`, Python floats as exact
rationals `ℚ`, and the per-table state of the series-library database as an
explicit `Library` structure.  Every function is a computable translation of
the corresponding Python function; SQL statements are translated by their
documented SQLite semantics (e.g. `WHERE c IS NOT NULL`, `LIKE '%t%'` on a
pattern without metacharacters, `ORDER BY`).
-/

namespace Devotional

/-- Strings are modelled as lists of characters, so that all scanning
functions are structurally recursive and computable. -/
abbrev Str := List Char

/-- Shorthand turning a Lean string literal into the `List Char` model. -/
def str (s : String) : Str := s.data

/-- Python `str.lower` (restricted to the character-wise case mapping,
which agrees with Python on ASCII text). -/
def lowerS (s : Str) : Str := s.map Char.toLower

/-- The whitespace class of Python's `str.strip` and of the regex class
`\s`, restricted to ASCII (space, tab, newline, carriage return, form feed,
vertical tab). -/
def isPySpace (c : Char) : Bool :=
  c = ' ' || c = '\t' || c = '\n' || c = '\r' || c = '\x0b' || c = '\x0c'

/-- Python `str.strip()`: remove leading and trailing whitespace. -/
def strip (s : Str) : Str :=
  ((s.dropWhile isPySpace).reverse.dropWhile isPySpace).reverse

/-!
## Schema Detector (`compare.py` `detect_schema`,
`devotional_generator.py` `get_database_info`)

A corpus database is modelled by its `sqlite_master` content: the list of
tables in storage order, each with its name and column list, plus the rows
of each table.  Only what the two detectors inspect is represented.
-/

/-- One table entry of `sqlite_master`: name and declared columns. -/
structure TableInfo where
  name : String
  columns : List String
deriving DecidableEq

/-- A corpus database as seen by the schema detectors: its tables in
`sqlite_master` storage order. -/
structure CorpusDb where
  tables : List TableInfo
deriving DecidableEq

/-- The two accepted collection names, in the disjunction order of the SQL
query `name='transcripts' OR name='video_transcripts'`; the query returns
rows in storage order and `fetchone` takes the first. -/
def isAcceptedTable (t : TableInfo) : Bool :=
  t.name = "transcripts" || t.name = "video_transcripts"

/-- The `fetchone` of
`SELECT name FROM sqlite_master WHERE type='table' AND (name='transcripts' OR name='video_transcripts')`:
the first accepted table in storage order. -/
def firstAcceptedTable (db : CorpusDb) : Option TableInfo :=
  db.tables.find? isAcceptedTable

/-- The text-column choice of `detect_schema` (`compare.py` lines 64-70):
prefer `transcript_text`, then `transcript`, otherwise report absence. -/
def chooseTranscriptCol (columns : List String) : Option String :=
  if "transcript_text" ∈ columns then some "transcript_text"
  else if "transcript" ∈ columns then some "transcript"
  else none

/-- Model of `detect_schema` (`compare.py` lines 44-72).  The Python
function returns the sentinel pair `(None, None)` both when no accepted
table exists and when neither text column exists; that sentinel is `none`
here, and a successful detection is `some (table, column)`. -/
def detect_schema (db : CorpusDb) : Option (String × String) :=
  match firstAcceptedTable db with
  | none => none
  | some t =>
    match chooseTranscriptCol t.columns with
    | none => none
    | some c => some (t.name, c)

/-- Model of the schema-detection part of `get_database_info`
(`devotional_generator.py` lines 57-98).  The Python function returns
`None` when no accepted table exists; otherwise it picks
`transcript_text` if present and falls back to `transcript` WITHOUT
checking that it exists.  When the fallback column is absent, the
subsequent query `SELECT SUM(LENGTH(transcript)) ...` raises
`sqlite3.OperationalError`, which the surrounding `try`/`except` catches,
returning `None`.  Both `None` outcomes are `none` here; otherwise the
result is `some (table, column)` as reported in the info dictionary. -/
def get_database_info (db : CorpusDb) : Option (String × String) :=
  match firstAcceptedTable db with
  | none => none
  | some t =>
    let c := if "transcript_text" ∈ t.columns then "transcript_text"
             else "transcript"
    if c ∈ t.columns then some (t.name, c) else none

/-!
## Substring scanning

`countOcc` models Python's `str.count` (non-overlapping occurrences,
scanning left to right and advancing past each match), and
`occPositions` the match positions produced by the `while` loop of
`find_all_contexts` (`compare.py` lines 486-504), which advances by the
search term's length after each hit.  Both are structurally recursive on
the scanned text, with a skip counter consuming the remainder of a match.
On an empty needle, Python's `str.count` returns `len + 1` and the source
loop never terminates; the model returns `0` resp. `[]` there, and every
theorem about these functions assumes a non-empty needle.
-/

/-- Python's substring containment `needle in hay`. -/
def isSubstring (needle : Str) : Str → Bool
  | [] => needle.isEmpty
  | c :: rest => needle.isPrefixOf (c :: rest) || isSubstring needle rest

def countOccGo (t : Str) : Str → Nat → Nat
  | [], _ => 0
  | _ :: rest, k + 1 => countOccGo t rest k
  | c :: rest, 0 =>
    if t.isPrefixOf (c :: rest) then 1 + countOccGo t rest (t.length - 1)
    else countOccGo t rest 0

/-- Python `hay.count(t)`: non-overlapping occurrence count. -/
def countOcc (t hay : Str) : Nat := countOccGo t hay 0

def occPosGo (t : Str) : Str → Nat → Nat → List Nat
  | [], _, _ => []
  | _ :: rest, k + 1, i => occPosGo t rest k (i + 1)
  | c :: rest, 0, i =>
    if t.isPrefixOf (c :: rest) then i :: occPosGo t rest (t.length - 1) (i + 1)
    else occPosGo t rest 0 (i + 1)

/-- The positions at which the repeated `text.find(term, pos)` loop of
`find_all_contexts` reports a match, in left-to-right order. -/
def occPositions (t hay : Str) : List Nat := occPosGo t hay 0 0

theorem occPosGo_length (t : Str) :
    ∀ (s : Str) (k i : Nat), (occPosGo t s k i).length = countOccGo t s k := by
  intro s
  induction s with
  | nil => intro k i; rfl
  | cons c rest ih =>
    intro k i
    cases k with
    | zero =>
      by_cases hp : t.isPrefixOf (c :: rest)
      · simp [occPosGo, countOccGo, hp, ih, Nat.add_comm]
      · simp [occPosGo, countOccGo, hp, ih]
    | succ k => simp [occPosGo, countOccGo, ih]

/-!
## Context Scanner (`compare.py` `find_all_contexts`, lines 468-506)
-/

/-- One row of the transcripts table as used by the scanner: the selected
`title` and text columns, both nullable. -/
structure TranscriptRow where
  title : Option Str
  text : Option Str
deriving DecidableEq

/-- The SQL row filter `WHERE LOWER(col) LIKE '%term%'` with the
lowercased search term interpolated.  For a term containing no `LIKE`
metacharacters (`%`, `_`), this is case-insensitive substring
containment; a `NULL` column never matches. -/
def matchedRow (term : Str) (r : TranscriptRow) : Bool :=
  match r.text with
  | some t => isSubstring (lowerS term) (lowerS t)
  | none => false

/-- One occurrence record produced by `find_all_contexts`. -/
structure ContextHit where
  title : Option Str
  context : Str
  position : Nat
deriving DecidableEq

/-- The context window of one occurrence: `context_chars` characters each
side, clamped to the record's boundaries, stripped, and tagged with
ellipses (`compare.py` lines 493-501). -/
def mkContext (text : Str) (termLen ctx pos : Nat) : Str :=
  let start := pos - ctx
  let stop := min text.length (pos + termLen + ctx)
  str "..." ++ strip ((text.drop start).take (stop - start)) ++ str "..."

/-- Model of `find_all_contexts`: rows are filtered by the SQL `LIKE`
query in storage order; each matched row with a truthy text is scanned
for every occurrence of the lowercased term in its lowercased text. -/
def find_all_contexts (rows : List TranscriptRow) (term : Str) (ctx : Nat) :
    List ContextHit :=
  (rows.filter (matchedRow term)).flatMap fun r =>
    match r.text with
    | none => []
    | some text =>
      if text.isEmpty then []
      else
        (occPositions (lowerS term) (lowerS text)).map fun pos =>
          { title := r.title, context := mkContext text term.length ctx pos,
            position := pos }

/-- The oracle stated by the spec, written from its words: `str.count` of
the lowercased term in the lowercased concatenation of the matched
records' text. -/
def specConcatCount (rows : List TranscriptRow) (term : Str) : Nat :=
  countOcc (lowerS term)
    (lowerS (((rows.filter (matchedRow term)).map (fun r => r.text.getD [])).flatten))

/-!
## Frequency Aggregator (`compare.py` `ComprehensiveAnalyzer.find_all_phrases`,
lines 334-371)
-/

/-- The hardcoded candidate phrase list (`compare.py` lines 338-358). -/
def targetPhrases : List Str :=
  [str "courts of heaven", str "court of heaven", str "DNA healing",
   str "wounded soul", str "soul wound", str "wounding spirit",
   str "leviathan spirit", str "jezebel spirit", str "python spirit",
   str "generational curse", str "territorial spirits", str "seven mountains",
   str "apostolic center", str "prophetic word", str "name it claim it",
   str "speak into existence", str "seed faith", str "hundredfold return",
   str "breakthrough anointing", str "supernatural favor", str "kingdom of god",
   str "kingdom now", str "power encounter", str "signs and wonders",
   str "holy spirit", str "baptism of the spirit", str "spiritual gifts",
   str "word of knowledge", str "gospel of", str "grace of god",
   str "blood of christ", str "atonement", str "justification",
   str "sanctification", str "repentance", str "faith alone",
   str "scripture alone", str "sola scriptura"]

/-- Python `' '.join`. -/
def joinSpace : List Str → Str
  | [] => []
  | [x] => x
  | x :: y :: rest => x ++ ' ' :: joinSpace (y :: rest)

/-- The truthy-text comprehension
`[row[0] for row in self.cursor.fetchall() if row[0]]`: skip `NULL` and
empty texts, keep storage order. -/
def rowTexts (rows : List TranscriptRow) : List Str :=
  rows.filterMap fun r =>
    match r.text with
    | some t => if t.isEmpty then none else some t
    | none => none

/-- The lowercased full-corpus buffer `all_text_lower` of
`find_all_phrases`. -/
def allTextLower (rows : List TranscriptRow) : Str :=
  lowerS (joinSpace (rowTexts rows))

/-- The per-phrase occurrence count
`all_text_lower.count(phrase.lower())`. -/
def phraseCount (rows : List TranscriptRow) (phrase : Str) : Nat :=
  countOcc (lowerS phrase) (allTextLower rows)

/-- Stable insertion of one element into a list sorted descending by a
numeric key.  The sort builds up by `foldr`, so the first input element is
inserted last and must land BEFORE every element of equal key to model
the stability of Python's `sorted`. -/
def insertDescBy (key : α → Nat) (x : α) : List α → List α
  | [] => [x]
  | y :: ys => if key y ≤ key x then x :: y :: ys else y :: insertDescBy key x ys

/-- Stable sort, descending by a numeric key: Python
`sorted(..., key=..., reverse=True)`. -/
def sortDescBy (key : α → Nat) (l : List α) : List α :=
  l.foldr (insertDescBy key) []

/-- Model of `find_all_phrases`: count each candidate phrase over the
full lowercased corpus buffer, keep the ones reaching `min_occurrences`,
and present them sorted descending by count. -/
def find_all_phrases (minOcc : Nat) (rows : List TranscriptRow) :
    List (Str × Nat) :=
  sortDescBy Prod.snd
    (targetPhrases.filterMap fun p =>
      if minOcc ≤ phraseCount rows p then some (p, phraseCount rows p) else none)

/-!
## Series Detector (`compare.py` `ComprehensiveAnalyzer.detect_series`,
lines 405-429)

The three title heuristics.  Pattern 1 (`if ':' in title`) and pattern 2
(`elif ' - Part ' in title or ' Part ' in title`) are an `if`/`elif`
chain, so pattern 2 only fires on titles without a colon; pattern 3 (the
trailing-integer regex) is a separate `if` and fires independently.
-/

/-- Does the regex `\s+-\s+Part|\s+Part` of `re.split` match at the head
of `s`?  Each `\s+` is followed by a non-whitespace literal (`-` or `P`),
so greedy matching with backtracking succeeds exactly when the maximal
whitespace run is non-empty and the literal follows it. -/
def partSplitHere (s : Str) : Bool :=
  let w1 := s.takeWhile isPySpace
  (!w1.isEmpty &&
    match s.drop w1.length with
    | '-' :: r2 =>
      let w2 := r2.takeWhile isPySpace
      !w2.isEmpty && (str "Part").isPrefixOf (r2.drop w2.length)
    | _ => false)
  || (!w1.isEmpty && (str "Part").isPrefixOf (s.drop w1.length))

/-- The text before the first match of the `re.split` pattern:
`re.split(r'\s+-\s+Part|\s+Part', title)[0]`. -/
def beforePartDelim : Str → Str
  | [] => []
  | c :: rest =>
    if partSplitHere (c :: rest) then [] else c :: beforePartDelim rest

/-- The group of `re.match(r'(.+?)\s+\d+$', title)`, or `none` when the
regex does not match.  Python semantics mirrored here: `$` matches at the
end or just before one final newline (`dropLast`); the full match then
ends at the end of the string, so `\d+` is the maximal non-empty trailing
digit run and `\s+` the maximal non-empty whitespace run before it; the
non-greedy `(.+?)` is the shortest non-empty remainder, whose characters
may not contain a newline (`.` does not match `\n`).  When the remainder
before the whitespace run is empty the group is the first whitespace
character (the run must then have length at least two).  `\d` and `\s`
are modelled by their ASCII classes. -/
def trailingNumGroup (t : Str) : Option Str :=
  let t1 := if t.getLast? = some '\n' then t.dropLast else t
  let rev := t1.reverse
  let dRev := rev.takeWhile Char.isDigit
  if dRev.isEmpty then none
  else
    let rest1 := rev.drop dRev.length
    let wRev := rest1.takeWhile isPySpace
    if wRev.isEmpty then none
    else
      let r := (rest1.drop wRev.length).reverse
      if r.isEmpty then
        match wRev.reverse with
        | w :: _ :: _ => if w = '\n' then none else some [w]
        | _ => none
      else if r.contains '\n' then none
      else some r

/-- An insertion-ordered counter, as a Python `collections.Counter`:
increment the value of an existing key in place, or append a new key with
count 1. -/
def bumpCounter (k : Str) : List (Str × Nat) → List (Str × Nat)
  | [] => [(k, 1)]
  | (k0, v) :: rest =>
    if k0 = k then (k0, v + 1) :: rest else (k0, v) :: bumpCounter k rest

/-- Counter lookup, 0 for an absent key. -/
def lookupCount (k : Str) : List (Str × Nat) → Nat
  | [] => 0
  | (k0, v) :: rest => if k0 = k then v else lookupCount k rest

/-- One iteration of the `for title in titles` loop of `detect_series`:
the `if`/`elif` chain of patterns 1 and 2, then the independent pattern 3. -/
def seriesStep (c : List (Str × Nat)) (title : Str) : List (Str × Nat) :=
  let c1 :=
    if title.contains ':' then
      bumpCounter (strip (title.takeWhile (fun ch => ch ≠ ':'))) c
    else if isSubstring (str " - Part ") title || isSubstring (str " Part ") title then
      bumpCounter (strip (beforePartDelim title)) c
    else c
  match trailingNumGroup title with
  | some g => bumpCounter (strip g) c1
  | none => c1

/-- The full counter over all (non-null) titles. -/
def seriesCounter (titles : List Str) : List (Str × Nat) :=
  titles.foldl seriesStep []

/-- The per-title contributions implied by the loop body: the name
extracted by the colon heuristic when a colon is present, OTHERWISE the
name extracted by the Part-delimiter heuristic when that delimiter is
present, plus (independently) the name extracted by the trailing-integer
heuristic when its regex matches. -/
def titleContribs (title : Str) : List Str :=
  (if title.contains ':' then [strip (title.takeWhile (fun ch => ch ≠ ':'))]
   else if isSubstring (str " - Part ") title || isSubstring (str " Part ") title then
     [strip (beforePartDelim title)]
   else [])
  ++ (match trailingNumGroup title with
      | some g => [strip g]
      | none => [])

/-- Model of `detect_series`: `Counter.most_common(20)` is the stable
descending sort by count truncated to 20 entries, then the dict
comprehension keeps entries with count at least 3. -/
def detect_series (titles : List Str) : List (Str × Nat) :=
  ((sortDescBy Prod.snd (seriesCounter titles)).take 20).filter fun p => 3 ≤ p.2

/-!
## Comparison Orchestrator (`compare.py` tab 4 topic-comparison loop,
lines 1066-1126, with the totals from lines 952-969)

Python floats are modelled as exact rationals; the percentages involved
are exact decimals, so no rounding behaviour is lost for the properties
stated here.
-/

/-- The per-topic record count
`SELECT COUNT(*) FROM t WHERE LOWER(col) LIKE '%topic%'`: the number of
records whose text matches, NOT a raw occurrence tally. -/
def countLike (topic : Str) (rows : List TranscriptRow) : Nat :=
  rows.countP (matchedRow topic)

/-- The corpus total used for percentages:
`SELECT COUNT(*) FROM t WHERE col IS NOT NULL` (lines 952-969), i.e. the
number of records with a non-null text field. -/
def totalNonNull (rows : List TranscriptRow) : Nat :=
  rows.countP fun r => r.text.isSome

/-- One row of the comparison results table. -/
structure TopicRow where
  count1 : Nat
  pct1 : ℚ
  count2 : Nat
  pct2 : ℚ
  diff : Int
deriving DecidableEq

/-- Model of one iteration of the `for topic in topics` loop: per-corpus
LIKE counts, percentages guarded against a zero total, and the signed
difference `count1 - count2_val`. -/
def compareTopic (topic : Str) (rows1 rows2 : List TranscriptRow) : TopicRow :=
  { count1 := countLike topic rows1
    pct1 := if 0 < totalNonNull rows1
      then (countLike topic rows1 : ℚ) / (totalNonNull rows1 : ℚ) * 100 else 0
    count2 := countLike topic rows2
    pct2 := if 0 < totalNonNull rows2
      then (countLike topic rows2 : ℚ) / (totalNonNull rows2 : ℚ) * 100 else 0
    diff := (countLike topic rows1 : Int) - (countLike topic rows2 : Int) }

/-!
## Devotional parser (`devotional_generator.py` `generate_devotionals`,
lines 342-388)

The generation output is cut into units at `---DEVOTIONAL START---`
markers; each unit is truncated at its first `---DEVOTIONAL END---`
marker and the field labels are peeled off by `str.split(sep, 1)`.  Any
missing marker or label skips that unit only (`continue`), so the
function is total and returns the well-formed units.
-/

/-- Python `s.split(sep, 1)` when it actually splits: the text before the
FIRST occurrence of `sep` and the text after it, or `none` when `sep`
does not occur (Python then returns `[s]`, which the source detects with
`len(...) < 2` and skips). -/
def splitOnce (sep : Str) : Str → Option (Str × Str)
  | [] => if sep.isPrefixOf [] then some ([], ([] : Str).drop sep.length) else none
  | c :: rest =>
    if sep.isPrefixOf (c :: rest) then some ([], (c :: rest).drop sep.length)
    else (splitOnce sep rest).map fun pr => (c :: pr.1, pr.2)

/-- Python `s.split(sep)` (all pieces, non-overlapping, left to right),
structurally recursive with a skip counter that consumes the matched
separator.  Python raises on an empty separator; the model returns `[s]`
there and is only used with the non-empty literal separators of the
source. -/
def splitAllGo (sep : Str) : Str → Nat → Str → List Str
  | [], _, acc => [acc.reverse]
  | _ :: rest, k + 1, acc => splitAllGo sep rest k acc
  | c :: rest, 0, acc =>
    if sep.isPrefixOf (c :: rest) && !sep.isEmpty then
      acc.reverse :: splitAllGo sep rest (sep.length - 1) []
    else splitAllGo sep rest 0 (c :: acc)

def splitAll (sep s : Str) : List Str := splitAllGo sep s 0 []

/-- The delimiter protocol markers and field labels. -/
def devStart : Str := str "---DEVOTIONAL START---"

def devEnd : Str := str "---DEVOTIONAL END---"

def labelTitle : Str := str "TITLE:"

def labelNarrative : Str := str "NARRATIVE:"

def labelScriptures : Str := str "KEY SCRIPTURES:"

/-- One parsed devotional unit. -/
structure DevotionalUnit where
  title : Str
  narrative : List Str
  scriptures : List Str
deriving DecidableEq

/-- The narrative paragraphs:
`[p.strip() for p in narrative_text.split('\n\n') if p.strip()]`. -/
def parseParas (txt : Str) : List Str :=
  (splitAll (str "\n\n") txt).filterMap fun para =>
    if (strip para).isEmpty then none else some (strip para)

/-- The scripture lines: strip each line, keep those starting with `-` or
`•`, drop the bullet, strip again, keep non-empty results. -/
def parseScriptures (txt : Str) : List Str :=
  (splitAll (str "\n") txt).filterMap fun line =>
    match strip line with
    | [] => none
    | c :: rest =>
      if c = '-' || c = '•' then
        if (strip rest).isEmpty then none else some (strip rest)
      else none

/-- One unit of the parsing loop body: every `continue` of the source is
a `none` here.  The unit is truncated at its first
`---DEVOTIONAL END---`, stripped, then `TITLE:`, `NARRATIVE:` and
`KEY SCRIPTURES:` are peeled off left to right by first occurrence. -/
def parseAfterEnd (sec : Str) : Option DevotionalUnit :=
  match splitOnce labelTitle sec with
  | none => none
  | some (_, remaining) =>
    match splitOnce labelNarrative remaining with
    | none => none
    | some (titleRaw, narrRest) =>
      match splitOnce labelScriptures narrRest with
      | none => none
      | some (narrRaw, scriptRaw) =>
        some { title := strip titleRaw
               narrative := parseParas (strip narrRaw)
               scriptures := parseScriptures (strip scriptRaw) }

def parseUnit (section0 : Str) : Option DevotionalUnit :=
  match splitOnce devEnd section0 with
  | none => none
  | some (beforeEnd, _) => parseAfterEnd (strip beforeEnd)

/-- Model of the parsing phase of `generate_devotionals`: split the
response at the start markers, skip the text before the first marker, and
keep each unit that parses. -/
def parse_devotionals (content : Str) : List DevotionalUnit :=
  ((splitAll devStart content).drop 1).filterMap parseUnit

/-- Does `pat` occur in `s` starting at index `i`? -/
def matchesAt (pat s : Str) (i : Nat) : Bool := pat.isPrefixOf (s.drop i)

/-- The spec's well-formedness condition on a unit's section, written as
an existence of in-order, non-overlapping occurrences of the three field
labels (not as the parser's sequential first-occurrence splits). -/
def inOrderLabels (s : Str) : Bool :=
  (List.range (s.length + 1)).any fun i =>
    matchesAt labelTitle s i &&
    ((List.range (s.length + 1)).any fun j =>
      decide (i + labelTitle.length ≤ j) && matchesAt labelNarrative s j &&
      ((List.range (s.length + 1)).any fun k =>
        decide (j + labelNarrative.length ≤ k) && matchesAt labelScriptures s k))

/-- A unit is well formed when it carries the end marker and its section
(the stripped text before that marker) contains the three labels in
order. -/
def wellFormedUnit (u : Str) : Bool :=
  match splitOnce devEnd u with
  | none => false
  | some (beforeEnd, _) => inOrderLabels (strip beforeEnd)

/-!
## Series Library (`compare.py` lines 97-271 and the tab-9 status update,
line 2552)

The library database state is explicit: the rows of the two tables in
insertion order plus the next `AUTOINCREMENT` values (SQLite assigns
`lastrowid` sequentially starting at 1).  `datetime.now()` is passed in
as an explicit `now` string; the JSON serialisation of
`source_databases`/`sources` is abstracted as the serialised string. -/

/-- One entry of `series_data['posts']`. -/
structure PostData where
  post_num : Nat
  title : Option Str
  html : Str
  markdown : Option Str
  word_count : Option Nat
  sources : Option Str
deriving DecidableEq

/-- The `series_data` dictionary passed to `save_series_to_library`.  A
`status` entry may be present in the input; the code never reads it. -/
structure SeriesData where
  title : Str
  topic : Str
  num_posts : Nat
  audience : Str
  style : Str
  post_length : Str
  source_databases : Str
  total_words : Nat
  cost : Option ℚ
  status : Str
  posts : List PostData
deriving DecidableEq

/-- One row of the `series_library` table. -/
structure SeriesRow where
  series_id : Nat
  series_title : Str
  topic : Str
  num_posts : Nat
  audience : Str
  style : Str
  post_length : Str
  date_created : Str
  source_databases : Str
  total_words : Nat
  total_cost : ℚ
  status : Str
  tags : Option Str
  notes : Option Str
deriving DecidableEq

/-- One row of the `posts` table. -/
structure PostRow where
  post_id : Nat
  series_id : Nat
  post_number : Nat
  post_title : Str
  html_content : Str
  markdown_content : Str
  word_count : Nat
  sources_used : Str
  date_created : Str
deriving DecidableEq

/-- The state of the series-library database. -/
structure Library where
  series : List SeriesRow
  posts : List PostRow
  nextSeriesId : Nat
  nextPostId : Nat
deriving DecidableEq

/-- The state `init_series_library` creates when no database exists. -/
def emptyLibrary : Library := ⟨[], [], 1, 1⟩

/-- The rows inserted by the `for post in series_data['posts']` loop, in
order, with sequential `AUTOINCREMENT` post ids; each field default follows
the source's `post.get(...)` defaults. -/
def mkPostRows (sid : Nat) (now : Str) : List PostData → Nat → List PostRow
  | [], _ => []
  | q :: qs, pid =>
    { post_id := pid
      series_id := sid
      post_number := q.post_num
      post_title := q.title.getD (str "Post " ++ (Nat.repr q.post_num).data)
      html_content := q.html
      markdown_content := q.markdown.getD []
      word_count := q.word_count.getD 0
      sources_used := q.sources.getD (str "[]")
      date_created := now } :: mkPostRows sid now qs (pid + 1)

/-- Model of `save_series_to_library` (lines 146-195): insert the series
row with status hardcoded to `'draft'`, then insert one row per post;
returns the new state and `cursor.lastrowid`, the new series id. -/
def save_series_to_library (d : SeriesData) (now : Str) (lib : Library) :
    Library × Nat :=
  ({ series := lib.series ++
      [{ series_id := lib.nextSeriesId
         series_title := d.title
         topic := d.topic
         num_posts := d.num_posts
         audience := d.audience
         style := d.style
         post_length := d.post_length
         date_created := now
         source_databases := d.source_databases
         total_words := d.total_words
         total_cost := d.cost.getD 0
         status := str "draft"
         tags := none
         notes := none }]
     posts := lib.posts ++ mkPostRows lib.nextSeriesId now d.posts lib.nextPostId
     nextSeriesId := lib.nextSeriesId + 1
     nextPostId := lib.nextPostId + d.posts.length }, lib.nextSeriesId)

/-- Stable insertion into a list sorted ascending by a numeric key. -/
def insertAscBy (key : α → Nat) (x : α) : List α → List α
  | [] => [x]
  | y :: ys => if key x ≤ key y then x :: y :: ys else y :: insertAscBy key x ys

/-- Stable ascending sort by a numeric key: SQL `ORDER BY`. -/
def sortAscBy (key : α → Nat) (l : List α) : List α :=
  l.foldr (insertAscBy key) []

/-- Model of `get_series_details` (lines 215-240): `fetchone` the series
row by id, then all its posts `ORDER BY post_number`; `None` when the
series row is absent. -/
def get_series_details (sid : Nat) (lib : Library) :
    Option (SeriesRow × List PostRow) :=
  match lib.series.find? (fun s0 => s0.series_id = sid) with
  | none => none
  | some srow =>
    some (srow, sortAscBy PostRow.post_number
      (lib.posts.filter fun q => q.series_id = sid))

/-- Model of `delete_series` (lines 242-252): delete the post rows with
the series id, then the series row itself. -/
def delete_series (sid : Nat) (lib : Library) : Library :=
  { lib with
    posts := lib.posts.filter fun q => q.series_id ≠ sid
    series := lib.series.filter fun s0 => s0.series_id ≠ sid }

/-- Model of the tab-9 status update
(`UPDATE series_library SET status = ? WHERE series_id = ?`, line 2552). -/
def update_series_status (sid : Nat) (st : Str) (lib : Library) : Library :=
  { lib with
    series := lib.series.map fun s0 =>
      if s0.series_id = sid then { s0 with status := st } else s0 }

/-- No orphaned post rows: every post's series id references an existing
series row. -/
def orphanFree (lib : Library) : Prop :=
  ∀ q ∈ lib.posts, ∃ s0 ∈ lib.series, s0.series_id = q.series_id

/-- The AUTOINCREMENT counter is fresh: every stored series id (in either
table) is below the next id SQLite will assign.  Every state reachable
from `init_series_library` satisfies this. -/
def idsBelowNext (lib : Library) : Prop :=
  (∀ s0 ∈ lib.series, s0.series_id < lib.nextSeriesId)
  ∧ ∀ q ∈ lib.posts, q.series_id < lib.nextSeriesId

/-- Helper: the accepted-table search fails exactly when no table bears an
accepted name. -/
theorem firstAcceptedTable_none_iff (db : CorpusDb) :
    firstAcceptedTable db = none ↔
      ∀ t ∈ db.tables, t.name ≠ "transcripts" ∧ t.name ≠ "video_transcripts" := by
  unfold firstAcceptedTable
  rw [List.find?_eq_none]
  simp [isAcceptedTable]

/-- Helper: the two schema-detection entry points return the same result. -/
theorem detect_schema_eq_info (db : CorpusDb) :
    detect_schema db = get_database_info db := by
  unfold detect_schema get_database_info chooseTranscriptCol
  cases firstAcceptedTable db with
  | none => rfl
  | some ti =>
    by_cases h1 : "transcript_text" ∈ ti.columns
    · simp [h1]
    · by_cases h2 : "transcript" ∈ ti.columns
      · simp [h1, h2]
      · simp [h1, h2]

/-- Helper: when the sentinel is returned. -/
theorem detect_schema_none_iff (db : CorpusDb) :
    detect_schema db = none ↔
      ((∀ t ∈ db.tables, t.name ≠ "transcripts" ∧ t.name ≠ "video_transcripts")
       ∨ (∃ ti, firstAcceptedTable db = some ti
            ∧ "transcript_text" ∉ ti.columns ∧ "transcript" ∉ ti.columns)) := by
  unfold detect_schema chooseTranscriptCol
  cases h : firstAcceptedTable db with
  | none =>
    simp only [true_iff]
    exact Or.inl ((firstAcceptedTable_none_iff db).mp h)
  | some ti =>
    have hmem : ti ∈ db.tables := List.mem_of_find?_eq_some h
    have hacc : isAcceptedTable ti = true := List.find?_some h
    have hnotall : ¬ (∀ t ∈ db.tables, t.name ≠ "transcripts" ∧ t.name ≠ "video_transcripts") := by
      intro hall
      have := hall ti hmem
      simp [isAcceptedTable] at hacc
      tauto
    by_cases h1 : "transcript_text" ∈ ti.columns
    · simp only [h1, if_pos]
      constructor
      · intro hfalse
        simp at hfalse
      · rintro (hall | ⟨ti', hti', hn1, hn2⟩)
        · exact absurd hall hnotall
        · injection hti' with e
          subst e
          exact absurd h1 hn1
    · by_cases h2 : "transcript" ∈ ti.columns
      · simp only [h1, if_neg, h2, if_pos, if_false]
        constructor
        · intro hfalse
          simp at hfalse
        · rintro (hall | ⟨ti', hti', hn1, hn2⟩)
          · exact absurd hall hnotall
          · injection hti' with e
            subst e
            exact absurd h2 hn2
      · simp only [h1, h2, if_neg, if_false]
        constructor
        · intro _
          exact Or.inr ⟨ti, rfl, h1, h2⟩
        · intro _
          simp [h1, h2]

/-- Helper: a successful detection names the first accepted table and the
preferred existing text column. -/
theorem detect_schema_some (db : CorpusDb) (t c : String)
    (hc : detect_schema db = some (t, c)) :
    ∃ ti, firstAcceptedTable db = some ti ∧ ti.name = t
      ∧ c = (if "transcript_text" ∈ ti.columns then "transcript_text" else "transcript")
      ∧ c ∈ ti.columns := by
  unfold detect_schema chooseTranscriptCol at hc
  cases h : firstAcceptedTable db with
  | none => rw [h] at hc; simp at hc
  | some ti =>
    rw [h] at hc
    refine ⟨ti, rfl, ?_⟩
    by_cases h1 : "transcript_text" ∈ ti.columns
    · simp [h1] at hc
      obtain ⟨e1, e2⟩ := hc
      subst e1
      refine ⟨rfl, ?_, ?_⟩
      · rw [if_pos h1]
        exact e2.symm
      · rw [← e2]
        exact h1
    · by_cases h2 : "transcript" ∈ ti.columns
      · simp [h1, h2] at hc
        obtain ⟨e1, e2⟩ := hc
        subst e1
        refine ⟨rfl, ?_, ?_⟩
        · rw [if_neg h1]
          exact e2.symm
        · rw [← e2]
          exact h2
      · simp [h1, h2] at hc


/-- Helper: a non-empty needle is no substring of the empty string, so a
record matched by the `LIKE` filter has a truthy text. -/
theorem matchedRow_text_ne_nil (term : Str) (r : TranscriptRow) (t : Str)
    (hterm : term ≠ []) (ht : r.text = some t) (hm : matchedRow term r = true) :
    t.isEmpty = false := by
  unfold matchedRow at hm
  rw [ht] at hm
  cases t with
  | nil =>
    exfalso
    unfold lowerS isSubstring at hm
    simp at hm
    exact hterm hm
  | cons c rest => rfl

/-- Helper: unfolding equation of the scanner at an unskipped position. -/
theorem countOccGo_cons_zero (t : Str) (c : Char) (rest : Str) :
    countOccGo t (c :: rest) 0 =
      if t.isPrefixOf (c :: rest) = true then 1 + countOccGo t rest (t.length - 1)
      else countOccGo t rest 0 := rfl

/-- Helper: unfolding equation of the scanner inside a skipped match. -/
theorem countOccGo_cons_succ (t : Str) (c : Char) (rest : Str) (k : Nat) :
    countOccGo t (c :: rest) (k + 1) = countOccGo t rest k := rfl

/-- Helper: no occurrence of a needle longer than the scanned text. -/
theorem countOccGo_eq_zero_of_lt (t : Str) :
    ∀ (s : Str) (k : Nat), s.length < t.length → countOccGo t s k = 0 := by
  intro s
  induction s with
  | nil => intro k _; rfl
  | cons c rest ih =>
    intro k hlt
    have hlc : (c :: rest).length = rest.length + 1 := rfl
    have hrest : rest.length < t.length := by omega
    cases k with
    | succ k => exact ih k hrest
    | zero =>
      have hp : ¬ t.isPrefixOf (c :: rest) = true := by
        intro htrue
        have hle := (List.isPrefixOf_iff_prefix.mp htrue).length_le
        omega
      rw [countOccGo_cons_zero, if_neg hp]
      exact ih 0 hrest

/-- Helper: the non-overlapping occurrence count never decreases when
text is appended on the right. -/
theorem countOccGo_append_mono (t : Str) :
    ∀ (s u : Str) (k : Nat), countOccGo t s k ≤ countOccGo t (s ++ u) k := by
  intro s
  induction s with
  | nil => intro u k; exact Nat.zero_le _
  | cons c rest ih =>
    intro u k
    rw [List.cons_append]
    cases k with
    | succ k =>
      rw [countOccGo_cons_succ, countOccGo_cons_succ]
      exact ih u k
    | zero =>
      by_cases hp : t.isPrefixOf (c :: rest) = true
      · have hp2 : t.isPrefixOf (c :: (rest ++ u)) = true := by
          apply List.isPrefixOf_iff_prefix.mpr
          have h2 := (List.isPrefixOf_iff_prefix.mp hp).trans
            (List.prefix_append (c :: rest) u)
          rwa [List.cons_append] at h2
        rw [countOccGo_cons_zero, countOccGo_cons_zero, if_pos hp, if_pos hp2]
        exact Nat.add_le_add_left (ih u (t.length - 1)) 1
      · by_cases hp2 : t.isPrefixOf (c :: (rest ++ u)) = true
        · have hlen : (c :: rest).length < t.length := by
            by_contra hle
            push_neg at hle
            apply hp
            apply List.isPrefixOf_iff_prefix.mpr
            have e1 : t = ((c :: rest) ++ u).take t.length := by
              have := List.prefix_iff_eq_take.mp (List.isPrefixOf_iff_prefix.mp hp2)
              rwa [← List.cons_append] at this
            have e2 : ((c :: rest) ++ u).take t.length = (c :: rest).take t.length :=
              List.take_append_of_le_length hle
            have htake : t = (c :: rest).take t.length := by
              rw [← e2]
              exact e1
            exact List.prefix_iff_eq_take.mpr htake
          rw [countOccGo_eq_zero_of_lt t (c :: rest) 0 hlen]
          exact Nat.zero_le _
        · rw [countOccGo_cons_zero, countOccGo_cons_zero, if_neg hp, if_neg hp2]
          exact ih u 0

/-- Helper: the per-phrase count is monotone when one record is appended
to the corpus. -/
theorem phraseCount_append_mono (rows : List TranscriptRow)
    (r : TranscriptRow) (phrase : Str) :
    phraseCount rows phrase ≤ phraseCount (rows ++ [r]) phrase := by
  obtain ⟨rt, rx⟩ := r
  unfold phraseCount allTextLower
  rw [show rowTexts (rows ++ [⟨rt, rx⟩]) = rowTexts rows ++ rowTexts [⟨rt, rx⟩] from
    List.filterMap_append rows [⟨rt, rx⟩] _]
  have hsmall : rowTexts [(⟨rt, rx⟩ : TranscriptRow)] = []
      ∨ ∃ t0, rowTexts [(⟨rt, rx⟩ : TranscriptRow)] = [t0] := by
    cases rx with
    | none => exact Or.inl rfl
    | some t0 =>
      by_cases h0 : t0 = []
      · exact Or.inl (by simp [rowTexts, List.filterMap_cons, h0])
      · exact Or.inr ⟨t0, by simp [rowTexts, List.filterMap_cons, h0]⟩
  rcases hsmall with hnil | ⟨t0, hone⟩
  · rw [hnil, List.append_nil]
  · rw [hone]
    cases hrow : rowTexts rows with
    | nil =>
      simp [joinSpace, countOcc, countOccGo, lowerS]
    | cons a as =>
      have hjoin : joinSpace ((a :: as) ++ [t0])
          = joinSpace (a :: as) ++ (' ' :: t0) := by
        clear hrow
        induction as generalizing a with
        | nil => rfl
        | cons b bs ih => simpa [joinSpace] using ih b
      rw [hjoin]
      unfold lowerS
      rw [List.map_append]
      exact countOccGo_append_mono _ _ _ 0

/-- Helper: membership in an insertion-sorted list. -/
theorem mem_insertDescBy (key : α → Nat) (x z : α) :
    ∀ (l : List α), z ∈ insertDescBy key x l ↔ z = x ∨ z ∈ l := by
  intro l
  induction l with
  | nil => simp [insertDescBy]
  | cons y ys ih =>
    by_cases h : key y ≤ key x
    · simp [insertDescBy, h]
    · simp only [insertDescBy, h, if_neg, if_false, List.mem_cons, ih]
      tauto

/-- Helper: sorting permutes membership only. -/
theorem mem_sortDescBy (key : α → Nat) (z : α) :
    ∀ (l : List α), z ∈ sortDescBy key l ↔ z ∈ l := by
  intro l
  induction l with
  | nil => simp [sortDescBy]
  | cons y ys ih =>
    rw [show sortDescBy key (y :: ys) = insertDescBy key y (sortDescBy key ys) from rfl]
    rw [mem_insertDescBy key y z, ih, List.mem_cons]

/-- Helper: a phrase appears in the aggregator output exactly when it is
a candidate whose count reaches the threshold. -/
theorem mem_find_all_phrases (minOcc : Nat) (rows : List TranscriptRow)
    (p : Str) :
    p ∈ (find_all_phrases minOcc rows).map Prod.fst ↔
      p ∈ targetPhrases ∧ minOcc ≤ phraseCount rows p := by
  unfold find_all_phrases
  simp only [List.mem_map]
  constructor
  · rintro ⟨pc, hmem, hfst⟩
    rw [mem_sortDescBy] at hmem
    rw [List.mem_filterMap] at hmem
    obtain ⟨a, ha, hfa⟩ := hmem
    by_cases hc : minOcc ≤ phraseCount rows a
    · rw [if_pos hc] at hfa
      injection hfa with h1
      subst h1
      subst hfst
      exact ⟨ha, hc⟩
    · rw [if_neg hc] at hfa
      exact absurd hfa (by simp)
  · rintro ⟨hp, hc⟩
    refine ⟨(p, phraseCount rows p), ?_, rfl⟩
    rw [mem_sortDescBy, List.mem_filterMap]
    exact ⟨p, hp, by rw [if_pos hc]⟩

/-- Helper: bumping a counter key increments exactly that key's count. -/
theorem lookupCount_bumpCounter (k k0 : Str) :
    ∀ c, lookupCount k (bumpCounter k0 c)
      = lookupCount k c + (if k0 = k then 1 else 0) := by
  intro c
  induction c with
  | nil => by_cases h : k0 = k <;> simp [bumpCounter, lookupCount, h]
  | cons hd rest ih =>
    obtain ⟨k1, v⟩ := hd
    by_cases h1 : k1 = k0
    · subst h1
      by_cases h2 : k1 = k <;> simp [bumpCounter, lookupCount, h2]
    · by_cases h2 : k1 = k
      · subst h2
        have hk0 : ¬ (k0 = k1) := fun e => h1 e.symm
        simp [bumpCounter, lookupCount, h1, hk0]
      · simp [bumpCounter, lookupCount, h1, h2, ih]

/-- Helper: one loop iteration adds exactly the title's contributions. -/
theorem lookupCount_seriesStep (k : Str) (c : List (Str × Nat)) (t : Str) :
    lookupCount k (seriesStep c t) = lookupCount k c + (titleContribs t).count k := by
  unfold seriesStep titleContribs
  by_cases hc : t.contains ':' = true
  · cases htr : trailingNumGroup t with
    | some g =>
      simp only [hc, if_pos, htr, lookupCount_bumpCounter, List.count_append,
        List.count_cons, List.count_nil, beq_iff_eq]
      ring
    | none =>
      simp only [hc, if_pos, htr, lookupCount_bumpCounter, List.count_append,
        List.count_cons, List.count_nil, beq_iff_eq]
      ring
  · by_cases hp : (isSubstring (str " - Part ") t || isSubstring (str " Part ") t) = true
    · cases htr : trailingNumGroup t with
      | some g =>
        simp only [hc, hp, if_neg, if_pos, if_false, Bool.false_eq_true, htr,
          lookupCount_bumpCounter, List.count_append, List.count_cons,
          List.count_nil, beq_iff_eq]
        ring
      | none =>
        simp only [hc, hp, if_neg, if_pos, if_false, Bool.false_eq_true, htr,
          lookupCount_bumpCounter, List.count_append, List.count_cons,
          List.count_nil, beq_iff_eq]
        ring
    · cases htr : trailingNumGroup t with
      | some g =>
        simp only [hc, hp, if_neg, if_false, Bool.false_eq_true, htr,
          lookupCount_bumpCounter, List.count_append, List.count_cons,
          List.count_nil, beq_iff_eq]
        ring
      | none =>
        simp only [hc, hp, if_neg, if_false, Bool.false_eq_true, htr,
          lookupCount_bumpCounter, List.count_append, List.count_cons,
          List.count_nil, beq_iff_eq]
        ring

/-- Helper: the whole loop, with a generalised accumulator. -/
theorem lookupCount_foldl_seriesStep (k : Str) :
    ∀ (titles : List Str) (acc : List (Str × Nat)),
      lookupCount k (titles.foldl seriesStep acc)
        = lookupCount k acc + ((titles.map titleContribs).flatten).count k := by
  intro titles
  induction titles with
  | nil => intro acc; simp
  | cons t ts ih =>
    intro acc
    simp only [List.foldl_cons, List.map_cons, List.flatten_cons, List.count_append]
    rw [ih (seriesStep acc t), lookupCount_seriesStep]
    ring

/-- Helper: counter value of a name equals its number of contributions. -/
theorem lookupCount_seriesCounter (k : Str) (titles : List Str) :
    lookupCount k (seriesCounter titles)
      = ((titles.map titleContribs).flatten).count k := by
  have h := lookupCount_foldl_seriesStep k titles []
  simpa [lookupCount, seriesCounter] using h

/-- Helper: insertion keeps the list sorted descending by key. -/
theorem pairwise_insertDescBy (key : α → Nat) (x : α) :
    ∀ (l : List α), l.Pairwise (fun a b => key b ≤ key a) →
      (insertDescBy key x l).Pairwise (fun a b => key b ≤ key a) := by
  intro l
  induction l with
  | nil => intro _; simp [insertDescBy]
  | cons y ys ih =>
    intro h
    rw [List.pairwise_cons] at h
    obtain ⟨hy, hys⟩ := h
    by_cases hle : key y ≤ key x
    · rw [show insertDescBy key x (y :: ys) = x :: y :: ys from by
        simp [insertDescBy, hle]]
      rw [List.pairwise_cons]
      refine ⟨?_, ?_⟩
      · intro z hz
        rcases List.mem_cons.mp hz with rfl | hz2
        · exact hle
        · exact le_trans (hy z hz2) hle
      · rw [List.pairwise_cons]
        exact ⟨hy, hys⟩
    · rw [show insertDescBy key x (y :: ys) = y :: insertDescBy key x ys from by
        simp [insertDescBy, hle]]
      rw [List.pairwise_cons]
      refine ⟨?_, ih hys⟩
      intro z hz
      rcases (mem_insertDescBy key x z ys).mp hz with rfl | hz2
      · omega
      · exact hy z hz2

/-- Helper: the sort output is sorted descending by key. -/
theorem sortDescBy_pairwise (key : α → Nat) :
    ∀ (l : List α), (sortDescBy key l).Pairwise (fun a b => key b ≤ key a) := by
  intro l
  induction l with
  | nil => simp [sortDescBy]
  | cons y ys ih => exact pairwise_insertDescBy key y _ ih

/-- Helper: a non-empty pattern is no prefix of the empty string. -/
theorem isPrefixOf_nil_eq_false (pat : Str) (h : pat ≠ []) :
    pat.isPrefixOf ([] : Str) = false := by
  cases pat with
  | nil => exact absurd rfl h
  | cons c cs => rfl

/-- Helper: a match position of a non-empty pattern is within bounds. -/
theorem matchesAt_le_length (pat s : Str) (i : Nat) (hpat : pat ≠ [])
    (h : matchesAt pat s i = true) : i ≤ s.length := by
  by_contra hgt
  push_neg at hgt
  unfold matchesAt at h
  rw [List.drop_eq_nil_of_le (le_of_lt hgt), isPrefixOf_nil_eq_false pat hpat] at h
  exact Bool.false_ne_true h

/-- Helper: match positions in a suffix shift by the dropped length. -/
theorem matchesAt_drop (pat s : Str) (m i : Nat) :
    matchesAt pat (s.drop m) i = matchesAt pat s (m + i) := by
  unfold matchesAt
  rw [List.drop_drop i m s]

/-- Helper: `split(sep, 1)` succeeds exactly when `sep` occurs. -/
theorem splitOnce_isSome_iff (sep : Str) :
    ∀ s : Str, (splitOnce sep s).isSome = true ↔ ∃ i, matchesAt sep s i = true := by
  intro s
  induction s with
  | nil =>
    constructor
    · intro hs
      refine ⟨0, ?_⟩
      unfold splitOnce at hs
      by_cases h : sep.isPrefixOf ([] : Str) = true
      · simpa [matchesAt] using h
      · rw [if_neg h] at hs
        simp at hs
    · rintro ⟨i, hi⟩
      unfold matchesAt at hi
      rw [List.drop_nil] at hi
      unfold splitOnce
      rw [if_pos hi]
      rfl
  | cons c rest ih =>
    by_cases h : sep.isPrefixOf (c :: rest) = true
    · constructor
      · intro _
        exact ⟨0, by simpa [matchesAt] using h⟩
      · intro _
        unfold splitOnce
        rw [if_pos h]
        rfl
    · unfold splitOnce
      rw [if_neg h, Option.isSome_map', ih]
      constructor
      · rintro ⟨i, hi⟩
        refine ⟨i + 1, ?_⟩
        unfold matchesAt at hi ⊢
        rw [List.drop_succ_cons]
        exact hi
      · rintro ⟨i, hi⟩
        cases i with
        | zero =>
          unfold matchesAt at hi
          rw [List.drop_zero] at hi
          exact absurd hi h
        | succ i =>
          refine ⟨i, ?_⟩
          unfold matchesAt at hi ⊢
          rw [List.drop_succ_cons] at hi
          exact hi

/-- Helper: what a successful `split(sep, 1)` returns: the first piece
measures the position of the FIRST occurrence of the separator, and the
second piece is everything after that occurrence. -/
theorem splitOnce_some_spec (sep : Str) :
    ∀ (s a b : Str), splitOnce sep s = some (a, b) →
      matchesAt sep s a.length = true
      ∧ b = s.drop (a.length + sep.length)
      ∧ ∀ q, q < a.length → matchesAt sep s q = false := by
  intro s
  induction s with
  | nil =>
    intro a b heq
    unfold splitOnce at heq
    by_cases h : sep.isPrefixOf ([] : Str) = true
    · rw [if_pos h] at heq
      simp only [Option.some.injEq, Prod.mk.injEq] at heq
      obtain ⟨ha, hb⟩ := heq
      subst ha
      subst hb
      refine ⟨by simpa [matchesAt] using h, by simp, ?_⟩
      intro q hq
      simp at hq
    · rw [if_neg h] at heq
      simp at heq
  | cons c rest ih =>
    intro a b heq
    unfold splitOnce at heq
    by_cases h : sep.isPrefixOf (c :: rest) = true
    · rw [if_pos h] at heq
      simp only [Option.some.injEq, Prod.mk.injEq] at heq
      obtain ⟨ha, hb⟩ := heq
      subst ha
      subst hb
      refine ⟨by simpa [matchesAt] using h, by simp, ?_⟩
      intro q hq
      simp at hq
    · rw [if_neg h] at heq
      cases hrec : splitOnce sep rest with
      | none =>
        rw [hrec] at heq
        simp at heq
      | some pr =>
        obtain ⟨a1, b1⟩ := pr
        rw [hrec] at heq
        simp only [Option.map_some', Option.some.injEq, Prod.mk.injEq] at heq
        obtain ⟨ha, hb⟩ := heq
        obtain ⟨h1, h2, h3⟩ := ih a1 b1 hrec
        subst ha
        subst hb
        refine ⟨?_, ?_, ?_⟩
        · unfold matchesAt at h1 ⊢
          rw [show (c :: a1).length = a1.length + 1 from rfl, List.drop_succ_cons]
          exact h1
        · have harith : (c :: a1).length + sep.length = (a1.length + sep.length) + 1 := by
            simp [List.length_cons]
            omega
          rw [harith, List.drop_succ_cons]
          exact h2
        · intro q hq
          cases q with
          | zero =>
            unfold matchesAt
            rw [List.drop_zero]
            exact Bool.not_eq_true _ ▸ h
          | succ q =>
            have hqlt : q < a1.length := by
              simp only [List.length_cons] at hq
              omega
            have hres := h3 q hqlt
            unfold matchesAt at hres ⊢
            rw [List.drop_succ_cons]
            exact hres

/-- Helper: unfolding of the in-order label condition. -/
theorem inOrderLabels_iff (s : Str) :
    inOrderLabels s = true ↔
      ∃ i j k, matchesAt labelTitle s i = true
        ∧ i + labelTitle.length ≤ j ∧ matchesAt labelNarrative s j = true
        ∧ j + labelNarrative.length ≤ k ∧ matchesAt labelScriptures s k = true := by
  unfold inOrderLabels
  constructor
  · intro h
    obtain ⟨i, hi, hrest⟩ := List.any_eq_true.mp h
    rw [Bool.and_eq_true] at hrest
    obtain ⟨hti, hrest2⟩ := hrest
    obtain ⟨j, hj, hrest3⟩ := List.any_eq_true.mp hrest2
    rw [Bool.and_eq_true, Bool.and_eq_true] at hrest3
    obtain ⟨⟨hdec1, htj⟩, hrest4⟩ := hrest3
    obtain ⟨k, hk, hrest5⟩ := List.any_eq_true.mp hrest4
    rw [Bool.and_eq_true] at hrest5
    obtain ⟨hdec2, htk⟩ := hrest5
    exact ⟨i, j, k, hti, of_decide_eq_true hdec1, htj, of_decide_eq_true hdec2, htk⟩
  · rintro ⟨i, j, k, hti, hij, htj, hjk, htk⟩
    have hTne : labelTitle ≠ [] := by decide
    have hNne : labelNarrative ≠ [] := by decide
    have hKne : labelScriptures ≠ [] := by decide
    apply List.any_eq_true.mpr
    refine ⟨i, List.mem_range.mpr ?_, ?_⟩
    · have := matchesAt_le_length _ _ _ hTne hti
      omega
    · rw [Bool.and_eq_true]
      refine ⟨hti, ?_⟩
      apply List.any_eq_true.mpr
      refine ⟨j, List.mem_range.mpr ?_, ?_⟩
      · have := matchesAt_le_length _ _ _ hNne htj
        omega
      · rw [Bool.and_eq_true, Bool.and_eq_true]
        refine ⟨⟨decide_eq_true hij, htj⟩, ?_⟩
        apply List.any_eq_true.mpr
        refine ⟨k, List.mem_range.mpr ?_, ?_⟩
        · have := matchesAt_le_length _ _ _ hKne htk
          omega
        · rw [Bool.and_eq_true]
          exact ⟨decide_eq_true hjk, htk⟩

/-- Helper: the label chain succeeds exactly when the three labels occur
in order: the greedy first-occurrence splits always work on the largest
possible suffix, so they find in-order occurrences whenever any exist. -/
theorem parseAfterEnd_isSome_eq (sec : Str) :
    (parseAfterEnd sec).isSome = inOrderLabels sec := by
  apply Bool.eq_iff_iff.mpr
  constructor
  · intro hsome
    unfold parseAfterEnd at hsome
    cases h1 : splitOnce labelTitle sec with
    | none =>
      simp only [h1] at hsome
      simp at hsome
    | some pr1 =>
      obtain ⟨a1, r1⟩ := pr1
      simp only [h1] at hsome
      cases h2 : splitOnce labelNarrative r1 with
      | none =>
        simp only [h2] at hsome
        simp at hsome
      | some pr2 =>
        obtain ⟨a2, r2⟩ := pr2
        simp only [h2] at hsome
        cases h3 : splitOnce labelScriptures r2 with
        | none =>
          simp only [h3] at hsome
          simp at hsome
        | some pr3 =>
          obtain ⟨a3, r3⟩ := pr3
          obtain ⟨m1, e1, _⟩ := splitOnce_some_spec labelTitle sec a1 r1 h1
          obtain ⟨m2, e2, _⟩ := splitOnce_some_spec labelNarrative r1 a2 r2 h2
          obtain ⟨m3, _, _⟩ := splitOnce_some_spec labelScriptures r2 a3 r3 h3
          rw [inOrderLabels_iff]
          refine ⟨a1.length, a1.length + labelTitle.length + a2.length,
            a1.length + labelTitle.length + a2.length + labelNarrative.length
              + a3.length, m1, by omega, ?_, by omega, ?_⟩
          · have hm2 := m2
            rw [e1, matchesAt_drop] at hm2
            convert hm2 using 2
          · have hm3 := m3
            rw [e2, e1, matchesAt_drop, matchesAt_drop] at hm3
            convert hm3 using 2
            omega
  · intro hwf
    obtain ⟨i, j, k, hti, hij, htj, hjk, htk⟩ := (inOrderLabels_iff sec).mp hwf
    unfold parseAfterEnd
    have hs1 : (splitOnce labelTitle sec).isSome = true :=
      (splitOnce_isSome_iff _ _).mpr ⟨i, hti⟩
    obtain ⟨⟨a1, r1⟩, h1⟩ := Option.isSome_iff_exists.mp hs1
    simp only [h1]
    obtain ⟨m1, e1, min1⟩ := splitOnce_some_spec _ _ _ _ h1
    have hp1 : a1.length ≤ i := by
      by_contra hlt
      push_neg at hlt
      have hf := min1 i hlt
      rw [hti] at hf
      simp at hf
    have hmatchN : matchesAt labelNarrative r1
        (j - (a1.length + labelTitle.length)) = true := by
      rw [e1, matchesAt_drop,
        show a1.length + labelTitle.length + (j - (a1.length + labelTitle.length))
          = j from by omega]
      exact htj
    have hs2 : (splitOnce labelNarrative r1).isSome = true :=
      (splitOnce_isSome_iff _ _).mpr ⟨_, hmatchN⟩
    obtain ⟨⟨a2, r2⟩, h2⟩ := Option.isSome_iff_exists.mp hs2
    simp only [h2]
    obtain ⟨m2, e2, min2⟩ := splitOnce_some_spec _ _ _ _ h2
    have hp2 : a2.length ≤ j - (a1.length + labelTitle.length) := by
      by_contra hlt
      push_neg at hlt
      have hf := min2 _ hlt
      rw [hmatchN] at hf
      simp at hf
    have hmatchK : matchesAt labelScriptures r2
        (k - (a1.length + labelTitle.length + a2.length
              + labelNarrative.length)) = true := by
      rw [e2, e1, matchesAt_drop, matchesAt_drop,
        show a1.length + labelTitle.length
            + (a2.length + labelNarrative.length
              + (k - (a1.length + labelTitle.length + a2.length
                  + labelNarrative.length)))
          = k from by omega]
      exact htk
    have hs3 : (splitOnce labelScriptures r2).isSome = true :=
      (splitOnce_isSome_iff _ _).mpr ⟨_, hmatchK⟩
    obtain ⟨⟨a3, r3⟩, h3⟩ := Option.isSome_iff_exists.mp hs3
    simp only [h3]
    rfl

/-- Helper: the parser accepts a unit exactly when it is well formed. -/
theorem parseUnit_isSome_eq (u : Str) : (parseUnit u).isSome = wellFormedUnit u := by
  unfold parseUnit wellFormedUnit
  cases he : splitOnce devEnd u with
  | none => rfl
  | some pr =>
    obtain ⟨beforeEnd, after⟩ := pr
    exact parseAfterEnd_isSome_eq (strip beforeEnd)

/-- Helper: the length of a `filterMap` counts the accepted elements. -/
theorem length_filterMap_eq_countP (f : α → Option β) :
    ∀ l : List α, (l.filterMap f).length = l.countP fun a => (f a).isSome := by
  intro l
  induction l with
  | nil => rfl
  | cons x xs ih =>
    cases hx : f x with
    | none => simp [List.filterMap_cons, hx, List.countP_cons, ih]
    | some b => simp [List.filterMap_cons, hx, List.countP_cons, ih]

/-- Helper: every inserted post row carries the new series id. -/
theorem mkPostRows_series_id (sid : Nat) (now : Str) :
    ∀ (qs : List PostData) (pid : Nat) (r : PostRow),
      r ∈ mkPostRows sid now qs pid → r.series_id = sid := by
  intro qs
  induction qs with
  | nil => intro pid r hr; simp [mkPostRows] at hr
  | cons q rest ih =>
    intro pid r hr
    rcases List.mem_cons.mp hr with rfl | hr2
    · rfl
    · exact ih (pid + 1) r hr2

/-- Helper: one post row per input post. -/
theorem mkPostRows_length (sid : Nat) (now : Str) :
    ∀ (qs : List PostData) (pid : Nat),
      (mkPostRows sid now qs pid).length = qs.length := by
  intro qs
  induction qs with
  | nil => intro pid; rfl
  | cons q rest ih => intro pid; simp [mkPostRows, ih]

/-- Helper: the inserted rows carry the input posts' numbers and HTML. -/
theorem mkPostRows_map_num_html (sid : Nat) (now : Str) :
    ∀ (qs : List PostData) (pid : Nat),
      (mkPostRows sid now qs pid).map (fun r => (r.post_number, r.html_content))
        = qs.map fun q => (q.post_num, q.html) := by
  intro qs
  induction qs with
  | nil => intro pid; rfl
  | cons q rest ih => intro pid; simp [mkPostRows, ih]

/-- Helper: ascending insertion permutes a cons. -/
theorem insertAscBy_perm (key : α → Nat) (x : α) :
    ∀ l : List α, List.Perm (insertAscBy key x l) (x :: l) := by
  intro l
  induction l with
  | nil => rfl
  | cons y ys ih =>
    by_cases h : key x ≤ key y
    · rw [show insertAscBy key x (y :: ys) = x :: y :: ys from by
        simp [insertAscBy, h]]
    · rw [show insertAscBy key x (y :: ys) = y :: insertAscBy key x ys from by
        simp [insertAscBy, h]]
      exact (ih.cons y).trans (List.Perm.swap x y ys)

/-- Helper: the ascending sort is a permutation. -/
theorem sortAscBy_perm (key : α → Nat) :
    ∀ l : List α, List.Perm (sortAscBy key l) l := by
  intro l
  induction l with
  | nil => rfl
  | cons y ys ih =>
    exact (insertAscBy_perm key y (sortAscBy key ys)).trans (ih.cons y)

/-- Helper: ascending insertion keeps the list sorted. -/
theorem pairwise_insertAscBy (key : α → Nat) (x : α) :
    ∀ l : List α, l.Pairwise (fun a b => key a ≤ key b) →
      (insertAscBy key x l).Pairwise (fun a b => key a ≤ key b) := by
  intro l
  induction l with
  | nil => intro _; simp [insertAscBy]
  | cons y ys ih =>
    intro h
    rw [List.pairwise_cons] at h
    obtain ⟨hy, hys⟩ := h
    by_cases hle : key x ≤ key y
    · rw [show insertAscBy key x (y :: ys) = x :: y :: ys from by
        simp [insertAscBy, hle]]
      rw [List.pairwise_cons]
      refine ⟨?_, ?_⟩
      · intro z hz
        rcases List.mem_cons.mp hz with rfl | hz2
        · exact hle
        · exact le_trans hle (hy z hz2)
      · rw [List.pairwise_cons]
        exact ⟨hy, hys⟩
    · rw [show insertAscBy key x (y :: ys) = y :: insertAscBy key x ys from by
        simp [insertAscBy, hle]]
      rw [List.pairwise_cons]
      refine ⟨?_, ih hys⟩
      intro z hz
      have hmem : z = x ∨ z ∈ ys := by
        have hp := (insertAscBy_perm key x ys).mem_iff.mp hz
        simpa using hp
      rcases hmem with rfl | hz2
      · omega
      · exact hy z hz2

/-- Helper: the ascending sort output is sorted. -/
theorem sortAscBy_pairwise (key : α → Nat) :
    ∀ l : List α, (sortAscBy key l).Pairwise fun a b => key a ≤ key b := by
  intro l
  induction l with
  | nil => simp [sortAscBy]
  | cons y ys ih => exact pairwise_insertAscBy key y _ ih

end Devotional

/-- C2 counterexample: with two records both equal to `"aaa"` and the
search term `"aa"`, the scanner reports one occurrence per record (two in
total), while `str.count` of the term in the concatenation `"aaaaaa"` of
the matched records' text is three, because a fresh non-overlapping scan
of the concatenation also matches across the record boundary. -/
theorem c2_context_count_counterexample :
    (Devotional.find_all_contexts
        [⟨some (Devotional.str "t1"), some (Devotional.str "aaa")⟩,
         ⟨some (Devotional.str "t2"), some (Devotional.str "aaa")⟩]
        (Devotional.str "aa") 200).length = 2
    ∧ Devotional.specConcatCount
        [⟨some (Devotional.str "t1"), some (Devotional.str "aaa")⟩,
         ⟨some (Devotional.str "t2"), some (Devotional.str "aaa")⟩]
        (Devotional.str "aa") = 3
    ∧ (2 : Nat) ≠ 3 := by
  refine ⟨by decide, by decide, by decide⟩

/-- C3: both schema-detection entry points select the first collection
among the accepted names `transcripts`/`video_transcripts`, select the
text field preferring `transcript_text` over `transcript`, and return the
`none` sentinel (instead of raising) exactly when the collection or the
text field is absent; the two entry points agree on every database. -/
theorem c3_schema_detection (db : Devotional.CorpusDb) :
    Devotional.detect_schema db = Devotional.get_database_info db
    ∧ (Devotional.detect_schema db = none ↔
        ((∀ t ∈ db.tables, t.name ≠ "transcripts" ∧ t.name ≠ "video_transcripts")
         ∨ (∃ ti, Devotional.firstAcceptedTable db = some ti
              ∧ "transcript_text" ∉ ti.columns ∧ "transcript" ∉ ti.columns)))
    ∧ (∀ t c, Devotional.detect_schema db = some (t, c) →
        ∃ ti, Devotional.firstAcceptedTable db = some ti ∧ ti.name = t
          ∧ c = (if "transcript_text" ∈ ti.columns then "transcript_text" else "transcript")
          ∧ c ∈ ti.columns) :=
  ⟨Devotional.detect_schema_eq_info db, Devotional.detect_schema_none_iff db,
    fun t c hc => Devotional.detect_schema_some db t c hc⟩

/-- Witness for C3: on a database whose first accepted table is
`video_transcripts` with only a `transcript` column, the detector
succeeds and its output is characterised by the theorem. -/
theorem c3_schema_detection_witness :
    ∃ ti,
      Devotional.firstAcceptedTable
          ⟨[⟨"other", ["id"]⟩, ⟨"video_transcripts", ["id", "transcript"]⟩]⟩ = some ti
      ∧ ti.name = "video_transcripts"
      ∧ "transcript" = (if "transcript_text" ∈ ti.columns then "transcript_text" else "transcript")
      ∧ "transcript" ∈ ti.columns :=
  (c3_schema_detection ⟨[⟨"other", ["id"]⟩, ⟨"video_transcripts", ["id", "transcript"]⟩]⟩).2.2
    "video_transcripts" "transcript" (by decide)

/-- C2 amended: for every corpus and non-empty search term, the number of
occurrences returned by the Context Scanner equals the SUM over the
matched records of the non-overlapping (`str.count`) substring count of
the lowercased term in each record's lowercased text; within each record
it finds every occurrence, resuming one term-length past the previous
match.  (The count over the CONCATENATION of the matched records' text
can differ, as the counterexample shows.) -/
theorem c2_context_scanner_amended (rows : List Devotional.TranscriptRow)
    (term : Devotional.Str) (ctx : Nat) (hterm : term ≠ []) :
    (Devotional.find_all_contexts rows term ctx).length
      = ((rows.filter (Devotional.matchedRow term)).map
          (fun r => Devotional.countOcc (Devotional.lowerS term)
            (Devotional.lowerS (r.text.getD [])))).sum := by
  unfold Devotional.find_all_contexts
  rw [List.length_flatMap]
  congr 1
  apply List.map_congr_left
  intro r hr
  have hm : Devotional.matchedRow term r = true := List.of_mem_filter hr
  cases ht : r.text with
  | none =>
    exfalso
    unfold Devotional.matchedRow at hm
    rw [ht] at hm
    simp at hm
  | some t =>
    have hne := Devotional.matchedRow_text_ne_nil term r t hterm ht hm
    simp only [Function.comp_apply, ht, hne, Bool.false_eq_true, if_false,
      List.length_map, Option.getD_some, Devotional.occPositions, Devotional.countOcc]
    exact Devotional.occPosGo_length (Devotional.lowerS term) (Devotional.lowerS t) 0 0

/-- Witness for C2 amended: a record containing `"grace"` twice yields
two hits, matching the per-record count sum. -/
theorem c2_context_scanner_amended_witness :
    (Devotional.find_all_contexts
        [⟨some (Devotional.str "t"), some (Devotional.str "Grace upon grace")⟩]
        (Devotional.str "grace") 5).length
      = (([⟨some (Devotional.str "t"), some (Devotional.str "Grace upon grace")⟩].filter
            (Devotional.matchedRow (Devotional.str "grace"))).map
          (fun r => Devotional.countOcc (Devotional.lowerS (Devotional.str "grace"))
            (Devotional.lowerS (r.text.getD [])))).sum :=
  c2_context_scanner_amended
    [⟨some (Devotional.str "t"), some (Devotional.str "Grace upon grace")⟩]
    (Devotional.str "grace") 5 (by decide)

/-- C9: for the fixed phrase list and any threshold, the Frequency
Aggregator's per-phrase count is monotone non-decreasing when a record is
appended to the corpus, and a phrase present in the output stays present
after the addition. -/
theorem c9_phrase_count_monotone (rows : List Devotional.TranscriptRow)
    (r : Devotional.TranscriptRow) (minOcc : Nat) :
    (∀ phrase, Devotional.phraseCount rows phrase
        ≤ Devotional.phraseCount (rows ++ [r]) phrase)
    ∧ ∀ p ∈ (Devotional.find_all_phrases minOcc rows).map Prod.fst,
        p ∈ (Devotional.find_all_phrases minOcc (rows ++ [r])).map Prod.fst := by
  refine ⟨fun phrase => Devotional.phraseCount_append_mono rows r phrase, ?_⟩
  intro p hp
  rw [Devotional.mem_find_all_phrases] at hp ⊢
  exact ⟨hp.1, le_trans hp.2 (Devotional.phraseCount_append_mono rows r p)⟩

/-- Witness for C9: with threshold 1, the phrase `grace of god` found in
a one-record corpus is still reported after a second record is added. -/
theorem c9_phrase_count_monotone_witness :
    Devotional.str "grace of god" ∈
      (Devotional.find_all_phrases 1
        ([⟨none, some (Devotional.str "the grace of god")⟩] ++
          [⟨none, some (Devotional.str "amen")⟩])).map Prod.fst :=
  (c9_phrase_count_monotone [⟨none, some (Devotional.str "the grace of god")⟩]
      ⟨none, some (Devotional.str "amen")⟩ 1).2
    (Devotional.str "grace of god") (by decide)

/-- C1 counterexample: the title `"Romans: The Law - Part 2"` contains
both a colon and the `" - Part "` delimiter, yet the counter of the name
extracted by the Part-delimiter heuristic (the text before `" - Part "`,
i.e. `"Romans: The Law"`) is NOT incremented, because patterns 1 and 2
form an `if`/`elif` chain and the colon branch wins. -/
theorem c1_series_heuristics_counterexample :
    (Devotional.str "Romans: The Law - Part 2").contains ':' = true
    ∧ Devotional.isSubstring (Devotional.str " - Part ")
        (Devotional.str "Romans: The Law - Part 2") = true
    ∧ Devotional.lookupCount (Devotional.str "Romans: The Law")
        (Devotional.seriesCounter [Devotional.str "Romans: The Law - Part 2"]) = 0 := by
  refine ⟨by decide, by decide, by decide⟩

/-- C1 amended: the Series Detector applies the colon heuristic and the
Part-delimiter heuristic exclusively — the Part-delimiter heuristic fires
only on titles without a colon — while the trailing-integer heuristic is
applied independently of the other two; for every multiset of titles the
counter of each name equals the total number of per-title contributions
described by `titleContribs`. -/
theorem c1_series_heuristics_amended (titles : List Devotional.Str)
    (name : Devotional.Str) :
    Devotional.lookupCount name (Devotional.seriesCounter titles)
      = ((titles.map Devotional.titleContribs).flatten).count name :=
  Devotional.lookupCount_seriesCounter name titles

/-- C5: the detector output has at most 20 entries, every entry has count
at least 3, the entries are ordered descending by count; on the example
titles, `"Romans: Part 1"` feeds the group `"Romans"` via the colon
heuristic, `"Hope 2"` feeds `"Hope"` via the trailing-integer heuristic,
and `"Love"` with only 2 occurrences is absent from the output. -/
theorem c5_series_output (titles : List Devotional.Str) :
    (Devotional.detect_series titles).length ≤ 20
    ∧ (Devotional.detect_series titles).all (fun p => 3 ≤ p.2) = true
    ∧ (Devotional.detect_series titles).Pairwise (fun a b => b.2 ≤ a.2)
    ∧ Devotional.detect_series
        [Devotional.str "Romans: Part 1", Devotional.str "Romans: Part 2",
         Devotional.str "Romans: Part 3", Devotional.str "Hope 1",
         Devotional.str "Hope 2", Devotional.str "Hope 3",
         Devotional.str "Love 1", Devotional.str "Love 2"]
      = [(Devotional.str "Romans", 3), (Devotional.str "Romans: Part", 3),
         (Devotional.str "Hope", 3)] := by
  refine ⟨?_, ?_, ?_, by decide⟩
  · exact le_trans (List.length_filter_le _ _) (List.length_take_le _ _)
  · rw [List.all_eq_true]
    intro p hp
    exact (List.mem_filter.mp hp).2
  · unfold Devotional.detect_series
    exact List.Pairwise.sublist
      ((List.filter_sublist _).trans (List.take_sublist _ _))
      (Devotional.sortDescBy_pairwise Prod.snd _)

/-- C4 counterexample: in a corpus of 2 records, one with a NULL text and
one containing `"grace"`, the code computes the percentage over the count
of records with non-null text (1 of 1, i.e. 100%), not over the corpus's
total record count (1 of 2, i.e. 50%) as the claim states. -/
theorem c4_topic_percentage_counterexample :
    (Devotional.compareTopic (Devotional.str "grace")
        [⟨none, none⟩, ⟨none, some (Devotional.str "grace")⟩]
        [⟨none, some (Devotional.str "grace")⟩]).pct1 = 100
    ∧ ((Devotional.countLike (Devotional.str "grace")
          [⟨none, none⟩, ⟨none, some (Devotional.str "grace")⟩] : ℚ)
        / (([⟨none, none⟩, ⟨none, some (Devotional.str "grace")⟩]
            : List Devotional.TranscriptRow).length : ℚ) * 100) = 50
    ∧ (100 : ℚ) ≠ 50 := by
  have hc : Devotional.countLike (Devotional.str "grace")
      [⟨none, none⟩, ⟨none, some (Devotional.str "grace")⟩] = 1 := by decide
  have ht : Devotional.totalNonNull
      [⟨none, none⟩, ⟨none, some (Devotional.str "grace")⟩] = 1 := by decide
  refine ⟨?_, ?_, by norm_num⟩
  · simp only [Devotional.compareTopic, hc, ht]
    norm_num
  · rw [hc]
    norm_num

/-- C4 amended: for every pair of corpora and every topic, the loop
counts the records whose text case-insensitively contains the topic (one
per record, however many occurrences it has), computes each percentage as
that count divided by the corpus's count of records with a NON-NULL text
field times 100 (0 when that total is 0), and the signed difference as
corpus-1 count minus corpus-2 count; on the spec's example (10 records, 3
with `"grace"` vs 20 records, 8 with `"grace"`, all texts non-null) the
percentages are 30% and 40% and the difference is -5. -/
theorem c4_topic_comparison_amended (topic : Devotional.Str)
    (rows1 rows2 : List Devotional.TranscriptRow) :
    (Devotional.compareTopic topic rows1 rows2).count1
        = (rows1.filter (Devotional.matchedRow topic)).length
    ∧ (Devotional.compareTopic topic rows1 rows2).diff
        = ((rows1.filter (Devotional.matchedRow topic)).length : Int)
          - ((rows2.filter (Devotional.matchedRow topic)).length : Int)
    ∧ (Devotional.compareTopic topic rows1 rows2).pct1
        = (if 0 < Devotional.totalNonNull rows1
           then (Devotional.countLike topic rows1 : ℚ)
             / (Devotional.totalNonNull rows1 : ℚ) * 100 else 0)
    ∧ Devotional.countLike (Devotional.str "grace")
        [⟨none, some (Devotional.str "grace grace grace")⟩] = 1
    ∧ (Devotional.compareTopic (Devotional.str "grace")
        (List.replicate 3 ⟨none, some (Devotional.str "saved by grace")⟩
          ++ List.replicate 7 ⟨none, some (Devotional.str "other text")⟩)
        (List.replicate 8 ⟨none, some (Devotional.str "saved by grace")⟩
          ++ List.replicate 12 ⟨none, some (Devotional.str "other text")⟩)).pct1 = 30
    ∧ (Devotional.compareTopic (Devotional.str "grace")
        (List.replicate 3 ⟨none, some (Devotional.str "saved by grace")⟩
          ++ List.replicate 7 ⟨none, some (Devotional.str "other text")⟩)
        (List.replicate 8 ⟨none, some (Devotional.str "saved by grace")⟩
          ++ List.replicate 12 ⟨none, some (Devotional.str "other text")⟩)).pct2 = 40
    ∧ (Devotional.compareTopic (Devotional.str "grace")
        (List.replicate 3 ⟨none, some (Devotional.str "saved by grace")⟩
          ++ List.replicate 7 ⟨none, some (Devotional.str "other text")⟩)
        (List.replicate 8 ⟨none, some (Devotional.str "saved by grace")⟩
          ++ List.replicate 12 ⟨none, some (Devotional.str "other text")⟩)).diff = -5 := by
  have e1 : Devotional.countLike (Devotional.str "grace")
      (List.replicate 3 (⟨none, some (Devotional.str "saved by grace")⟩
          : Devotional.TranscriptRow)
        ++ List.replicate 7 ⟨none, some (Devotional.str "other text")⟩) = 3 := by decide
  have e2 : Devotional.countLike (Devotional.str "grace")
      (List.replicate 8 (⟨none, some (Devotional.str "saved by grace")⟩
          : Devotional.TranscriptRow)
        ++ List.replicate 12 ⟨none, some (Devotional.str "other text")⟩) = 8 := by decide
  have e3 : Devotional.totalNonNull
      (List.replicate 3 (⟨none, some (Devotional.str "saved by grace")⟩
          : Devotional.TranscriptRow)
        ++ List.replicate 7 ⟨none, some (Devotional.str "other text")⟩) = 10 := by decide
  have e4 : Devotional.totalNonNull
      (List.replicate 8 (⟨none, some (Devotional.str "saved by grace")⟩
          : Devotional.TranscriptRow)
        ++ List.replicate 12 ⟨none, some (Devotional.str "other text")⟩) = 20 := by decide
  refine ⟨?_, ?_, rfl, by decide, ?_, ?_, ?_⟩
  · simp [Devotional.compareTopic, Devotional.countLike,
      List.countP_eq_length_filter]
  · simp [Devotional.compareTopic, Devotional.countLike,
      List.countP_eq_length_filter]
  · simp only [Devotional.compareTopic, e1, e3]
    norm_num
  · simp only [Devotional.compareTopic, e2, e4]
    norm_num
  · simp only [Devotional.compareTopic, e1, e2]
    norm_num

/-- C6: the devotional parser returns exactly the well-formed units: a
unit (a piece of the split at `---DEVOTIONAL START---`, after the first)
parses iff it carries the `---DEVOTIONAL END---` marker and its section
contains `TITLE:`, `NARRATIVE:` and `KEY SCRIPTURES:` in order; every
malformed unit is skipped individually while the remaining units are
still returned, and the parser is a total function (no exception can
propagate from a malformed unit). -/
theorem c6_parser_wellformed (content : Devotional.Str) :
    (Devotional.parse_devotionals content).length
      = (((Devotional.splitAll Devotional.devStart content).drop 1).filter
          Devotional.wellFormedUnit).length
    ∧ ∀ u, (Devotional.parseUnit u).isSome = Devotional.wellFormedUnit u := by
  refine ⟨?_, Devotional.parseUnit_isSome_eq⟩
  unfold Devotional.parse_devotionals
  rw [Devotional.length_filterMap_eq_countP, List.countP_eq_length_filter]
  congr 1
  apply List.filter_congr
  intro u _
  exact Devotional.parseUnit_isSome_eq u

/-- C7: saving a series and fetching it back by the returned id yields
the same number of posts, ordered ascending by post number, with the
post numbers and HTML contents a permutation of what was saved.  The
hypotheses say the library's AUTOINCREMENT counter is fresh (every
existing row's series id is below it), which every state reachable from
`init_series_library` satisfies. -/
theorem c7_library_roundtrip (lib : Devotional.Library) (d : Devotional.SeriesData)
    (now st : Devotional.Str) (sid : Nat) (h : Devotional.idsBelowNext lib) :
    (∃ srow fetched,
      Devotional.get_series_details (Devotional.save_series_to_library d now lib).2
          (Devotional.save_series_to_library d now lib).1 = some (srow, fetched)
      ∧ fetched.length = d.posts.length
      ∧ fetched.Pairwise (fun a b => a.post_number ≤ b.post_number)
      ∧ List.Perm (fetched.map fun r => (r.post_number, r.html_content))
          (d.posts.map fun q => (q.post_num, q.html)))
    ∧ Devotional.idsBelowNext Devotional.emptyLibrary
    ∧ Devotional.idsBelowNext (Devotional.save_series_to_library d now lib).1
    ∧ Devotional.idsBelowNext (Devotional.delete_series sid lib)
    ∧ Devotional.idsBelowNext (Devotional.update_series_status sid st lib) := by
  obtain ⟨hs, hp⟩ := h
  refine ⟨?_, ?_, ?_, ?_, ?_⟩
  case refine_2 =>
    exact ⟨fun s0 hs0 => absurd hs0 (List.not_mem_nil s0),
      fun q hq => absurd hq (List.not_mem_nil q)⟩
  case refine_3 =>
    constructor
    · intro s0 hs0
      rcases List.mem_append.mp hs0 with hold | hnewm
      · exact Nat.lt_succ_of_lt (hs s0 hold)
      · rw [List.mem_singleton.mp hnewm]
        exact Nat.lt_succ_self _
    · intro q hq
      rcases List.mem_append.mp hq with hold | hnewm
      · exact Nat.lt_succ_of_lt (hp q hold)
      · rw [Devotional.mkPostRows_series_id _ _ _ _ q hnewm]
        exact Nat.lt_succ_self _
  case refine_4 =>
    exact ⟨fun s0 hs0 => hs s0 (List.mem_of_mem_filter hs0),
      fun q hq => hp q (List.mem_of_mem_filter hq)⟩
  case refine_5 =>
    constructor
    · intro s0 hs0
      obtain ⟨s1, hs1, he⟩ := List.mem_map.mp hs0
      have hid : s0.series_id = s1.series_id := by
        rw [← he]
        by_cases hc : s1.series_id = sid
        · rw [if_pos hc]
        · rw [if_neg hc]
      rw [hid]
      exact hs s1 hs1
    · exact hp
  unfold Devotional.save_series_to_library Devotional.get_series_details
  have hfnone : lib.series.find? (fun s0 => s0.series_id = lib.nextSeriesId) = none := by
    apply List.find?_eq_none.mpr
    intro x hx
    simp only [decide_eq_true_eq]
    exact Nat.ne_of_lt (hs x hx)
  rw [List.find?_append, hfnone, Option.none_or,
    List.find?_cons_of_pos _ (by simp)]
  have hfilter : (lib.posts ++
        Devotional.mkPostRows lib.nextSeriesId now d.posts lib.nextPostId).filter
        (fun q => q.series_id = lib.nextSeriesId)
      = Devotional.mkPostRows lib.nextSeriesId now d.posts lib.nextPostId := by
    rw [List.filter_append]
    have h1 : lib.posts.filter (fun q => q.series_id = lib.nextSeriesId) = [] := by
      apply List.filter_eq_nil_iff.mpr
      intro q hq
      simp only [decide_eq_true_eq]
      exact Nat.ne_of_lt (hp q hq)
    have h2 : (Devotional.mkPostRows lib.nextSeriesId now d.posts
          lib.nextPostId).filter (fun q => q.series_id = lib.nextSeriesId)
        = Devotional.mkPostRows lib.nextSeriesId now d.posts lib.nextPostId := by
      apply List.filter_eq_self.mpr
      intro r hr
      simp only [decide_eq_true_eq]
      exact Devotional.mkPostRows_series_id lib.nextSeriesId now d.posts
        lib.nextPostId r hr
    rw [h1, h2, List.nil_append]
  rw [hfilter]
  refine ⟨_, _, rfl, ?_, ?_, ?_⟩
  · rw [(Devotional.sortAscBy_perm Devotional.PostRow.post_number _).length_eq,
      Devotional.mkPostRows_length]
  · exact Devotional.sortAscBy_pairwise Devotional.PostRow.post_number _
  · rw [← Devotional.mkPostRows_map_num_html lib.nextSeriesId now d.posts
      lib.nextPostId]
    exact (Devotional.sortAscBy_perm Devotional.PostRow.post_number _).map _

/-- Witness for C7: round-trip on the empty library with two posts given
in reversed number order. -/
theorem c7_library_roundtrip_witness :
    ∃ srow fetched,
      Devotional.get_series_details
          (Devotional.save_series_to_library
            ⟨Devotional.str "Hope", Devotional.str "hope", 2, Devotional.str "all",
             Devotional.str "warm", Devotional.str "short", Devotional.str "[]", 10,
             none, Devotional.str "ignored",
             [⟨2, none, Devotional.str "<p>B</p>", none, none, none⟩,
              ⟨1, none, Devotional.str "<p>A</p>", none, none, none⟩]⟩
            (Devotional.str "2026-01-01") Devotional.emptyLibrary).2
          (Devotional.save_series_to_library
            ⟨Devotional.str "Hope", Devotional.str "hope", 2, Devotional.str "all",
             Devotional.str "warm", Devotional.str "short", Devotional.str "[]", 10,
             none, Devotional.str "ignored",
             [⟨2, none, Devotional.str "<p>B</p>", none, none, none⟩,
              ⟨1, none, Devotional.str "<p>A</p>", none, none, none⟩]⟩
            (Devotional.str "2026-01-01") Devotional.emptyLibrary).1
        = some (srow, fetched)
      ∧ fetched.length
          = ([⟨2, none, Devotional.str "<p>B</p>", none, none, none⟩,
              ⟨1, none, Devotional.str "<p>A</p>", none, none, none⟩]
              : List Devotional.PostData).length
      ∧ fetched.Pairwise (fun a b => a.post_number ≤ b.post_number)
      ∧ List.Perm (fetched.map fun r => (r.post_number, r.html_content))
          (([⟨2, none, Devotional.str "<p>B</p>", none, none, none⟩,
             ⟨1, none, Devotional.str "<p>A</p>", none, none, none⟩]
             : List Devotional.PostData).map fun q => (q.post_num, q.html)) :=
  (c7_library_roundtrip Devotional.emptyLibrary
    ⟨Devotional.str "Hope", Devotional.str "hope", 2, Devotional.str "all",
     Devotional.str "warm", Devotional.str "short", Devotional.str "[]", 10,
     none, Devotional.str "ignored",
     [⟨2, none, Devotional.str "<p>B</p>", none, none, none⟩,
      ⟨1, none, Devotional.str "<p>A</p>", none, none, none⟩]⟩
    (Devotional.str "2026-01-01") (Devotional.str "x") 1
    ⟨by intro s0 hs0; simp [Devotional.emptyLibrary] at hs0,
     by intro q hq; simp [Devotional.emptyLibrary] at hq⟩).1

/-- C8: after `delete_series(id)` no post row and no series row with that
id remains, and every library operation (the initial empty state, saving,
deleting, updating a status) preserves the invariant that no orphaned
post rows exist. -/
theorem c8_delete_cascade_invariant (lib : Devotional.Library) (sid : Nat)
    (d : Devotional.SeriesData) (now st : Devotional.Str) :
    (∀ q ∈ (Devotional.delete_series sid lib).posts, q.series_id ≠ sid)
    ∧ (∀ s0 ∈ (Devotional.delete_series sid lib).series, s0.series_id ≠ sid)
    ∧ Devotional.orphanFree Devotional.emptyLibrary
    ∧ (Devotional.orphanFree lib →
        Devotional.orphanFree (Devotional.delete_series sid lib))
    ∧ (Devotional.orphanFree lib →
        Devotional.orphanFree (Devotional.save_series_to_library d now lib).1)
    ∧ (Devotional.orphanFree lib →
        Devotional.orphanFree (Devotional.update_series_status sid st lib)) := by
  refine ⟨?_, ?_, ?_, ?_, ?_, ?_⟩
  · intro q hq
    have h := (List.mem_filter.mp hq).2
    simpa using h
  · intro s0 hs0
    have h := (List.mem_filter.mp hs0).2
    simpa using h
  · intro q hq
    simp [Devotional.emptyLibrary] at hq
  · intro hof q hq
    obtain ⟨hqmem, hqne⟩ := List.mem_filter.mp hq
    obtain ⟨s0, hs0, hid⟩ := hof q hqmem
    refine ⟨s0, List.mem_filter.mpr ⟨hs0, ?_⟩, hid⟩
    rw [hid]
    exact hqne
  · intro hof q hq
    rcases List.mem_append.mp hq with hold | hnew
    · obtain ⟨s0, hs0, hid⟩ := hof q hold
      exact ⟨s0, List.mem_append_left _ hs0, hid⟩
    · refine ⟨_, List.mem_append_right _ (List.mem_singleton_self _), ?_⟩
      exact (Devotional.mkPostRows_series_id _ _ _ _ q hnew).symm
  · intro hof q hq
    obtain ⟨s0, hs0, hid⟩ := hof q hq
    refine ⟨if s0.series_id = sid then { s0 with status := st } else s0,
      List.mem_map_of_mem _ hs0, ?_⟩
    by_cases h : s0.series_id = sid
    · rw [if_pos h]
      exact hid
    · rw [if_neg h]
      exact hid

/-- Witness for C8: deleting series 1 from a one-series, one-post library
leaves an orphan-free state. -/
theorem c8_delete_cascade_invariant_witness :
    Devotional.orphanFree (Devotional.delete_series 1
      ⟨[⟨1, Devotional.str "t", Devotional.str "to", 1, Devotional.str "a",
         Devotional.str "s", Devotional.str "p", Devotional.str "d",
         Devotional.str "[]", 0, 0, Devotional.str "draft", none, none⟩],
       [⟨1, 1, 1, Devotional.str "Post 1", Devotional.str "<p>A</p>", [], 0,
         Devotional.str "[]", Devotional.str "d"⟩], 2, 2⟩) :=
  (c8_delete_cascade_invariant
      ⟨[⟨1, Devotional.str "t", Devotional.str "to", 1, Devotional.str "a",
         Devotional.str "s", Devotional.str "p", Devotional.str "d",
         Devotional.str "[]", 0, 0, Devotional.str "draft", none, none⟩],
       [⟨1, 1, 1, Devotional.str "Post 1", Devotional.str "<p>A</p>", [], 0,
         Devotional.str "[]", Devotional.str "d"⟩], 2, 2⟩ 1
      ⟨Devotional.str "T", Devotional.str "t", 0, Devotional.str "a",
       Devotional.str "s", Devotional.str "p", Devotional.str "[]", 0, none,
       Devotional.str "draft", []⟩
      (Devotional.str "d") (Devotional.str "published")).2.2.2.1
    (by unfold Devotional.orphanFree; decide)

/-- C10: `save_series_to_library` stores the new series with status
`'draft'` regardless of any status value carried in the input: changing
the input's status field does not change the result at all, and the
stored row's status is `'draft'`. -/
theorem c10_saved_status_draft (d : Devotional.SeriesData)
    (lib : Devotional.Library) (now st : Devotional.Str) :
    Devotional.save_series_to_library { d with status := st } now lib
        = Devotional.save_series_to_library d now lib
    ∧ ((Devotional.save_series_to_library d now lib).1.series.getLast?).map
        Devotional.SeriesRow.status = some (Devotional.str "draft") := by
  refine ⟨rfl, ?_⟩
  unfold Devotional.save_series_to_library
  rw [List.getLast?_concat]
  rfl
